import Mathlib

/-!
Shallow embedding of the scheduling, bulk-import and voting core of a
university timetabling application (a Django project).  Python model methods
become pure Lean functions; the database becomes an explicit list of rows;
wall-clock times of day become minutes since midnight (Nat, so Python
datetime.time comparisons coincide with Nat comparisons); absolute timestamps
become minutes on an Int axis.  Fallible validation returns Except.
-/

namespace AzadUni

/-- A row of the ClassSchedule table (classes/models.py, class ClassSchedule).
Foreign keys are represented by natural keys scoped to one faculty: the room
by its room-number label, the teacher by full name, the course by course code.
startTime and endTime are minutes since midnight; cancelledAt is an absolute
timestamp in minutes.  timeSlot is none for both NULL and blank, matching
Python truthiness of the CharField.  The field skipValidation models the
ad-hoc _skip_validation instance attribute that the importer sets. -/
structure ClassSchedule where
  pk : Option Nat
  course : String
  teacher : Option String
  room : Option String
  dayOfWeek : String
  startTime : Option Nat
  endTime : Option Nat
  timeSlot : Option String
  semester : Option String
  academicYear : Option String
  isHolding : Bool
  cancelledAt : Option Int
  isActive : Bool
  skipValidation : Bool
  deriving Repr, DecidableEq

/-- Duration in minutes of ClassSchedule.get_duration_hours (models.py:266-284).
The source works in fractional hours; clean compares the result against 0.5 h
and 6 h, i.e. 30 and 360 minutes, so minutes are an exact rescaling.  When the
end does not lie strictly after the start the source adds one day. -/
def durationMinutes (s e : Nat) : Nat :=
  if e ≤ s then e + 1440 - s else e - s

/-- ClassSchedule.is_time_conflict_with (models.py:286-310): false unless both
schedules carry start and end times; false for different days; otherwise
returns not (self.end < other.start or other.end < self.start), with strict
comparisons exactly as in the source. -/
def is_time_conflict_with (self other : ClassSchedule) : Bool :=
  match self.startTime, self.endTime, other.startTime, other.endTime with
  | some sStart, some sEnd, some oStart, some oEnd =>
    if self.dayOfWeek ≠ other.dayOfWeek then false
    else !(decide (sEnd < oStart) || decide (oEnd < sStart))
  | _, _, _, _ => false

/-- The ValidationError outcomes of ClassSchedule.clean as structured values.
The conflict constructors carry the colliding schedule row, from which the
source formats course, teacher, room, day and time into its message. -/
inductive CleanError where
  | missingTiming
  | invalidOrder
  | durationTooShort
  | durationTooLong
  | roomConflict (conflicting : ClassSchedule)
  | teacherConflict (conflicting : ClassSchedule)
  deriving Repr, DecidableEq

/-- Whether a validation error is one of the two duration-bound rejections. -/
def CleanError.isDurationError : CleanError → Bool
  | .durationTooShort => true
  | .durationTooLong => true
  | _ => false

/-- The ordering and duration checks of clean (models.py:362-379): when both
times are present, start must precede end, and when the computed duration is
nonzero (Python truthiness of the float) it must be at least 30 minutes and at
most 6 hours. -/
def fieldChecks (self : ClassSchedule) : Option CleanError :=
  match self.startTime, self.endTime with
  | some s, some e =>
    if e ≤ s then some .invalidOrder
    else
      let d := durationMinutes s e
      if d ≠ 0 then
        if d < 30 then some .durationTooShort
        else if 360 < d then some .durationTooLong
        else none
      else none
  | _, _ => none

/-- The room-dimension conflict scan of clean (models.py:381-405): guarded on
room, day and both times being present, it filters the store to active rows in
the same room on the same day excluding the candidate's own primary key, and
returns the first row that has times and conflicts. -/
def roomConflictCheck (db : List ClassSchedule) (self : ClassSchedule) : Option ClassSchedule :=
  if self.room.isSome && decide (self.dayOfWeek ≠ "") && self.startTime.isSome && self.endTime.isSome then
    (db.filter fun o =>
      decide (o.room = self.room) && decide (o.dayOfWeek = self.dayOfWeek) &&
        o.isActive && decide (o.pk ≠ self.pk)).find?
      fun o => o.startTime.isSome && o.endTime.isSome && is_time_conflict_with self o
  else none

/-- The teacher-dimension conflict scan of clean (models.py:407-430), keyed on
the teacher instead of the room and guarded on the teacher being set. -/
def teacherConflictCheck (db : List ClassSchedule) (self : ClassSchedule) : Option ClassSchedule :=
  if self.teacher.isSome && decide (self.dayOfWeek ≠ "") && self.startTime.isSome && self.endTime.isSome then
    (db.filter fun o =>
      decide (o.teacher = self.teacher) && decide (o.dayOfWeek = self.dayOfWeek) &&
        o.isActive && decide (o.pk ≠ self.pk)).find?
      fun o => o.startTime.isSome && o.endTime.isSome && is_time_conflict_with self o
  else none

/-- ClassSchedule.clean (models.py:337-443) against an explicit store.  The
closing credit-hours block of the source computes expected bounds but enforces
nothing, so it contributes no behaviour and is omitted. -/
def clean (db : List ClassSchedule) (self : ClassSchedule) : Except CleanError Unit :=
  if self.skipValidation then .ok ()
  else if !(self.startTime.isSome && self.endTime.isSome) && self.timeSlot.isNone then
    .error .missingTiming
  else
    match fieldChecks self with
    | some err => .error err
    | none =>
      match roomConflictCheck db self with
      | some other => .error (.roomConflict other)
      | none =>
        match teacherConflictCheck db self with
        | some other => .error (.teacherConflict other)
        | none => .ok ()

/-- The fixed legacy slot labels TIME_CHOICES (models.py:177-195). -/
def TIME_CHOICES : List String :=
  ["07:30-09:15", "09:15-11:00", "11:00-13:15", "13:15-15:00", "15:00-16:45",
   "16:45-18:00", "07:30-10:10", "10:15-13:30", "13:30-16:00", "16:00-18:30"]

/-- Zero-padded two-digit rendering, as Python strftime. -/
def pad2 (n : Nat) : String := if n < 10 then "0" ++ toString n else toString n

/-- Minutes since midnight rendered as HH:MM. -/
def fmtTime (m : Nat) : String := pad2 (m / 60) ++ ":" ++ pad2 (m % 60)

/-- The time_slot backfill at the top of ClassSchedule.save (models.py:460-465):
when both times are present and the slot label is empty, set it to the
formatted range only if that exact string is a predefined legacy label. -/
def backfillTimeSlot (s : ClassSchedule) : ClassSchedule :=
  match s.startTime, s.endTime, s.timeSlot with
  | some a, some b, none =>
    let v := fmtTime a ++ "-" ++ fmtTime b
    if TIME_CHOICES.contains v then { s with timeSlot := some v } else s
  | _, _, _ => s

/-- A fresh primary key: one above every key already in the store. -/
def nextPk : List ClassSchedule → Nat
  | [] => 1
  | o :: rest =>
    match o.pk with
    | some i => max (i + 1) (nextPk rest)
    | none => nextPk rest

/-- The storage layer's row write underneath Model.save: update in place when a
row with this primary key exists, otherwise insert, assigning a fresh key when
the instance carries none. -/
def persist (db : List ClassSchedule) (s : ClassSchedule) : List ClassSchedule :=
  match s.pk with
  | some i =>
    if db.any (fun o => decide (o.pk = some i)) then
      db.map fun o => if o.pk = some i then s else o
    else db ++ [s]
  | none => db ++ [{ s with pk := some (nextPk db) }]

/-- ClassSchedule.save (models.py:451-473): backfill the legacy slot label, then
run full validation unless the skip_validation kwarg or the _skip_validation
attribute is set; a validation error aborts the write and leaves the store
untouched. -/
def saveSchedule (db : List ClassSchedule) (s : ClassSchedule) (skipKwarg : Bool) :
    Except CleanError (List ClassSchedule) :=
  let s := backfillTimeSlot s
  if skipKwarg || s.skipValidation then .ok (persist db s)
  else
    match clean db s with
    | .ok _ => .ok (persist db s)
    | .error e => .error e

/-- An active persisted schedule occupying 08:00-10:30 on Saturday in room 318. -/
def schedEarly : ClassSchedule :=
  { pk := some 1, course := "MATH101", teacher := some "T One", room := some "318",
    dayOfWeek := "saturday", startTime := some 480, endTime := some 630,
    timeSlot := none, semester := some "S1", academicYear := some "1403",
    isHolding := true, cancelledAt := none, isActive := true, skipValidation := false }

/-- An unsaved candidate occupying 10:30-12:00 on Saturday in room 318,
starting exactly when schedEarly ends. -/
def schedLate : ClassSchedule :=
  { pk := none, course := "PHYS101", teacher := some "T Two", room := some "318",
    dayOfWeek := "saturday", startTime := some 630, endTime := some 720,
    timeSlot := none, semester := some "S1", academicYear := some "1403",
    isHolding := true, cancelledAt := none, isActive := true, skipValidation := false }

/-- A candidate carrying only the legacy slot label 07:30-10:10, no start or
end time, in the room and day of schedEarly. -/
def slotOnlyCand : ClassSchedule :=
  { schedLate with startTime := none, endTime := none, timeSlot := some "07:30-10:10" }

/-- A candidate occupying 09:00-11:00 in the room and day of schedEarly. -/
def candMid : ClassSchedule :=
  { schedLate with startTime := some 540, endTime := some 660 }

/-- A data row of the import file after header mapping and the calendar parse
of import_ai_excel (ai_excel_importer.py:244-274).  The fields hold the
normalized cell values; hasCalendarMatch and dayRecognized stand for the
outcome of the fixed calendar regex and the static day-name table on the raw
calendar cell -- textual preprocessing none of the claims depend on -- and
startTime and endTime are the two parsed times in minutes. -/
structure ImportRow where
  courseCode : String
  courseName : String
  teacherName : String
  roomName : String
  hasCalendarMatch : Bool
  dayRecognized : Bool
  day : String
  startTime : Nat
  endTime : Nat
  deriving Repr, DecidableEq

/-- The categorized store-independent per-row failures of import_ai_excel. -/
inductive RowError where
  | invalidCalendar
  | invalidDay
  | missingCourseCode
  | rowInvalidOrder
  | rowDurationTooShort
  | rowDurationTooLong
  deriving Repr, DecidableEq

/-- The per-row checks of import_ai_excel in source order: calendar regex
mismatch (line 266), unrecognized day name (line 270), empty course code
(line 277), end not after start (line 388), and the row-level duration bounds
(lines 391-406).  Each depends only on the row, never on the store, so a row
fails identically on every run. -/
def rowError (r : ImportRow) : Option RowError :=
  if !r.hasCalendarMatch then some .invalidCalendar
  else if !r.dayRecognized then some .invalidDay
  else if r.courseCode = "" then some .missingCourseCode
  else if r.endTime ≤ r.startTime then some .rowInvalidOrder
  else
    let d := durationMinutes r.startTime r.endTime
    if d < 30 then some .rowDurationTooShort
    else if 360 < d then some .rowDurationTooLong
    else none

/-- The upsert lookup key of the schedule import (ai_excel_importer.py:414-420):
room, day of week, start time, end time and semester. -/
def rowKeyMatches (semester : String) (r : ImportRow) (o : ClassSchedule) : Bool :=
  decide (o.room = some r.roomName) && decide (o.dayOfWeek = r.day) &&
    decide (o.startTime = some r.startTime) && decide (o.endTime = some r.endTime) &&
    decide (o.semester = some semester)

/-- The fresh ClassSchedule instance the importer builds for a row
(ai_excel_importer.py:433-444), with the skip-validation attribute set. -/
def rowSchedule (r : ImportRow) (semester academicYear : String) : ClassSchedule :=
  { pk := none, course := r.courseCode, teacher := some r.teacherName,
    room := some r.roomName, dayOfWeek := r.day, startTime := some r.startTime,
    endTime := some r.endTime, timeSlot := none, semester := some semester,
    academicYear := some academicYear, isHolding := true, cancelledAt := none,
    isActive := true, skipValidation := true }

/-- The field update the importer applies to an existing schedule on a key hit
(ai_excel_importer.py:423-428): course, teacher, academic year, active flag,
plus the skip-validation attribute. -/
def updateSchedule (sch : ClassSchedule) (r : ImportRow) (academicYear : String) :
    ClassSchedule :=
  { sch with course := r.courseCode, teacher := some r.teacherName, academicYear := some academicYear, isActive := true, skipValidation := true }

/-- The schedule upsert of import_ai_excel (ai_excel_importer.py:410-448): look
up by (room, day, start, end, semester); update on a hit, else create; either
way the skip-validation attribute is set before save, so clean is bypassed.
Returns the new store and the created flag. -/
def importUpsertSchedule (db : List ClassSchedule) (r : ImportRow)
    (semester academicYear : String) : List ClassSchedule × Bool :=
  match db.find? (rowKeyMatches semester r) with
  | some sch =>
    match saveSchedule db (updateSchedule sch r academicYear) false with
    | .ok db2 => (db2, false)
    | .error _ => (db, false)
  | none =>
    match saveSchedule db (rowSchedule r semester academicYear) false with
    | .ok db2 => (db2, true)
    | .error _ => (db, true)

/-- Running counters, collected row errors and the evolving store of one
invocation of the importer (total, inserted, updated, errors of
ai_excel_importer.py:194-197 and 244-525). -/
structure ImportState where
  db : List ClassSchedule
  total : Nat
  inserted : Nat
  updated : Nat
  errors : List RowError
  deriving Repr, DecidableEq

/-- One iteration of the row loop of import_ai_excel: count the row; on a row
failure record the categorized error and continue; otherwise upsert and bump
the inserted or updated counter. -/
def processRow (semester academicYear : String) (st : ImportState) (r : ImportRow) :
    ImportState :=
  match rowError r with
  | some err => { st with total := st.total + 1, errors := st.errors ++ [err] }
  | none =>
    let p := importUpsertSchedule st.db r semester academicYear
    if p.2 then { st with db := p.1, total := st.total + 1, inserted := st.inserted + 1 }
    else { st with db := p.1, total := st.total + 1, updated := st.updated + 1 }

/-- The row loop of import_ai_excel started from an arbitrary state. -/
def runImport (semester academicYear : String) (st : ImportState)
    (rows : List ImportRow) : ImportState :=
  rows.foldl (processRow semester academicYear) st

/-- One whole import invocation over a pre-parsed sheet against a store. -/
def importRows (semester academicYear : String) (db : List ClassSchedule)
    (rows : List ImportRow) : ImportState :=
  runImport semester academicYear
    { db := db, total := 0, inserted := 0, updated := 0, errors := [] } rows

/-- Well-formedness of the store: pairwise-distinct primary keys, which the
write path maintains by assigning fresh keys on insert. -/
def WfDb (db : List ClassSchedule) : Prop := (db.map fun o => o.pk).Nodup

/-- The number of rows that pass every row-level check. -/
def countSucc (rows : List ImportRow) : Nat :=
  (rows.filter fun r => (rowError r).isNone).length

/-- C5 counterexample data: a well-formed row for Saturday 08:00-10:00 in room
318. -/
def rowSat : ImportRow :=
  { courseCode := "CS101", courseName := "Intro", teacherName := "T One",
    roomName := "318", hasCalendarMatch := true, dayRecognized := true,
    day := "saturday", startTime := 480, endTime := 600 }

/-- The record instance the importer inserts for a row, as it lands in the
store: the built instance, backfilled, under a fresh primary key. -/
def insertedRecord (r : ImportRow) (semester academicYear : String)
    (db : List ClassSchedule) : ClassSchedule :=
  { backfillTimeSlot (rowSchedule r semester academicYear) with pk := some (nextPk db) }

/-- A second import row for Saturday 09:00-11:00 in the same room 318,
overlapping rowSat's 08:00-10:00. -/
def rowSat2 : ImportRow := { rowSat with startTime := 540, endTime := 660 }

/-- One vote row.  The two mirror-image model classes (ClassCancellationVote,
ClassConfirmationVote) are referenced by the views but their declarations are
not among the provided sources; modelled from the spec: a vote references a
ClassSchedule, a voter fingerprint, an IP address and a vote timestamp
(minutes on the absolute axis). -/
structure Vote where
  schedule : Nat
  voterIdentifier : String
  ipAddress : String
  votedAt : Int
  deriving Repr, DecidableEq

/-- The two vote tables. -/
structure VoteStore where
  cancellationVotes : List Vote
  confirmationVotes : List Vote
  deriving Repr, DecidableEq

/-- The direction-salted voter fingerprint of the vote endpoints
(views.py:870, views.py:966): sha256 of ip + userAgent + direction salt,
modelled as the concatenation itself (the hash taken injective). -/
def mkFingerprint (ip userAgent salt : String) : String := ip ++ userAgent ++ salt

/-- The trailing 24-hour window filter every vote query applies
(voted_at >= now - 24 h, i.e. 1440 minutes). -/
def recentFor (now : Int) (sid : Nat) (votes : List Vote) : List Vote :=
  votes.filter fun v => decide (v.schedule = sid) && decide (now - 1440 ≤ v.votedAt)

/-- Modelled from the spec: get_cancellation_vote_count and
get_confirmation_vote_count are called by the views but not declared in the
provided sources; the spec fixes them as the number of votes for the schedule
within the trailing 24-hour window. -/
def recentVoteCount (now : Int) (sid : Nat) (votes : List Vote) : Nat :=
  (recentFor now sid votes).length

/-- The earliest-timestamped vote of a list, first occurrence on equal
timestamps: order_by voted_at followed by first(). -/
def oldestVote : List Vote → Option Vote
  | [] => none
  | v :: vs =>
    match oldestVote vs with
    | none => some v
    | some w => if w.votedAt < v.votedAt then some w else some v

/-- Deletion of one stored vote row (the .delete() call). -/
def eraseVote : List Vote → Vote → List Vote
  | [], _ => []
  | v :: vs, w => if v = w then vs else v :: eraseVote vs w

/-- What a vote endpoint reports back: rejection with the current
same-direction count, or acceptance with both updated counts. -/
inductive VoteOutcome where
  | alreadyVoted (voteCount : Nat)
  | recorded (voteCount : Nat) (oppositeCount : Nat)
  deriving Repr, DecidableEq

/-- vote_class_cancellation (views.py:846-925): reject when this fingerprint
already voted cancellation for this schedule within 24 hours; otherwise insert
the vote, delete the oldest recent confirmation vote if one exists, and return
both recomputed counts.  The call to check_and_update_holding_status mutates
derived flags on the schedule, not the vote store, and is outside this model. -/
def castCancellationVote (now : Int) (st : VoteStore) (sid : Nat) (voter ip : String) :
    VoteOutcome × VoteStore :=
  let dup := st.cancellationVotes.filter fun v =>
    decide (v.schedule = sid) && decide (v.voterIdentifier = voter) &&
      decide (now - 1440 ≤ v.votedAt)
  if dup ≠ [] then
    (.alreadyVoted (recentVoteCount now sid st.cancellationVotes), st)
  else
    let st1 : VoteStore :=
      { st with cancellationVotes := st.cancellationVotes ++ [⟨sid, voter, ip, now⟩] }
    let st2 : VoteStore :=
      match oldestVote (recentFor now sid st1.confirmationVotes) with
      | some w => { st1 with confirmationVotes := eraseVote st1.confirmationVotes w }
      | none => st1
    (.recorded (recentVoteCount now sid st2.cancellationVotes)
      (recentVoteCount now sid st2.confirmationVotes), st2)

/-- vote_class_confirmation (views.py:928-1021), the mirror image. -/
def castConfirmationVote (now : Int) (st : VoteStore) (sid : Nat) (voter ip : String) :
    VoteOutcome × VoteStore :=
  let dup := st.confirmationVotes.filter fun v =>
    decide (v.schedule = sid) && decide (v.voterIdentifier = voter) &&
      decide (now - 1440 ≤ v.votedAt)
  if dup ≠ [] then
    (.alreadyVoted (recentVoteCount now sid st.confirmationVotes), st)
  else
    let st1 : VoteStore :=
      { st with confirmationVotes := st.confirmationVotes ++ [⟨sid, voter, ip, now⟩] }
    let st2 : VoteStore :=
      match oldestVote (recentFor now sid st1.cancellationVotes) with
      | some w => { st1 with cancellationVotes := eraseVote st1.cancellationVotes w }
      | none => st1
    (.recorded (recentVoteCount now sid st2.confirmationVotes)
      (recentVoteCount now sid st2.cancellationVotes), st2)

/-- Two confirmation votes for schedule 5, cast 100 and 200 minutes into the
clock, and no cancellation votes. -/
def twoConfStore : VoteStore :=
  { cancellationVotes := [],
    confirmationVotes := [⟨5, "fpX", "ipX", 100⟩, ⟨5, "fpY", "ipY", 200⟩] }

/-- One recent cancellation vote for schedule 5 by fingerprint fpA. -/
def oneCancelStore : VoteStore :=
  { cancellationVotes := [⟨5, "fpA", "ipA", 900⟩], confirmationVotes := [] }

/-- The row filter of ClassSchedule.auto_reset_cancelled_schedules
(models.py:484-485): is_holding false, cancelled_at non-null and at or beyond
the two-hour (120 minute) threshold. -/
def shouldAutoReset (now : Int) (s : ClassSchedule) : Bool :=
  !s.isHolding &&
    match s.cancelledAt with
    | some t => decide (t ≤ now - 120)
    | none => false

/-- ClassSchedule.auto_reset_cancelled_schedules (models.py:475-492): the
filtered bulk update, setting is_holding true and clearing cancelled_at on
every matching row.  The source wraps the body in try/except and never
propagates a failure; the embedding is a total function. -/
def auto_reset_cancelled_schedules (now : Int) (db : List ClassSchedule) :
    List ClassSchedule :=
  db.map fun s =>
    if shouldAutoReset now s then { s with isHolding := true, cancelledAt := none } else s

/-- A schedule cancelled 119 minutes before clock time 10000. -/
def sched119 : ClassSchedule :=
  { schedEarly with isHolding := false, cancelledAt := some 9881 }

/-- A schedule cancelled 121 minutes before clock time 10000. -/
def sched121 : ClassSchedule :=
  { schedLate with pk := some 2, isHolding := false, cancelledAt := some 9879 }

/-- C1: the claim says two exactly back-to-back schedules in the same room on
the same day must both validate with no room or teacher conflict, because
touching intervals are not considered overlapping.  The code does the
opposite: is_time_conflict_with uses strict comparisons inside a negation, so
an interval pair with a.end = b.start satisfies
not (a.end < b.start or b.end < a.start) and is reported as a conflict, and
clean rejects the second schedule with a room conflict -- contradicting the
method's own docstring, which promises that 08:00-10:30 followed by
10:30-12:00 raises no false conflict. -/
theorem backToBack_is_rejected :
    is_time_conflict_with schedLate schedEarly = true ∧
    clean [schedEarly] schedLate = .error (.roomConflict schedEarly) := by
  constructor <;> rfl

/-- Helper: a member satisfying a Boolean predicate makes find? succeed, and
the found element is a member satisfying the predicate. -/
theorem find?_isSome_of_mem {α : Type} {p : α → Bool} {l : List α} {a : α}
    (ha : a ∈ l) (hp : p a = true) : ∃ b, l.find? p = some b ∧ b ∈ l ∧ p b = true := by
  induction l with
  | nil => cases ha
  | cons x xs ih =>
    by_cases hx : p x = true
    · exact ⟨x, List.find?_cons_of_pos _ hx, List.mem_cons_self x xs, hx⟩
    · rcases List.mem_cons.mp ha with rfl | ha2
      · exact absurd hp hx
      · rcases ih ha2 with ⟨b, hb1, hb2, hb3⟩
        exact ⟨b, by rw [List.find?_cons_of_neg _ hx, hb1], List.mem_cons_of_mem _ hb2, hb3⟩

/-- Backfilling the legacy slot label never touches any field other than the
slot label itself: the result is the record or the record with its slot set. -/
theorem backfillTimeSlot_cases (s : ClassSchedule) :
    backfillTimeSlot s = s ∨ ∃ v, backfillTimeSlot s = { s with timeSlot := some v } := by
  unfold backfillTimeSlot
  rcases hs : s.startTime with _ | a
  · left; rfl
  · rcases he : s.endTime with _ | b
    · left; rfl
    · rcases ht : s.timeSlot with _ | v
      · dsimp only
        by_cases hc : TIME_CHOICES.contains (fmtTime a ++ "-" ++ fmtTime b) = true
        · right
          refine ⟨fmtTime a ++ "-" ++ fmtTime b, ?_⟩
          rw [if_pos hc]
        · left; rw [if_neg hc]
      · left; rfl

/-- When both times are present, validation does not read the slot label, so
cleaning the backfilled record equals cleaning the record. -/
theorem clean_backfill_of_times {db : List ClassSchedule} {c : ClassSchedule}
    {a b : Nat} (hs : c.startTime = some a) (he : c.endTime = some b) :
    clean db (backfillTimeSlot c) = clean db c := by
  rcases backfillTimeSlot_cases c with h | ⟨v, h⟩
  · rw [h]
  · rw [h]
    simp [clean, fieldChecks, roomConflictCheck, teacherConflictCheck,
      is_time_conflict_with, hs, he]

/-- C9: with start before end, clean rejects with a duration error exactly when
the duration end - start is under 30 minutes or over 6 hours; 30 minutes and 6
hours themselves pass the duration check. -/
theorem duration_bounds_exact (db : List ClassSchedule) (c : ClassSchedule)
    (a b : Nat) (hs : c.startTime = some a) (he : c.endTime = some b) (hab : a < b)
    (hskip : c.skipValidation = false) :
    (∃ err, clean db c = .error err ∧ err.isDurationError = true) ↔
      (b - a < 30 ∨ 360 < b - a) := by
  have hba : ¬ b ≤ a := by omega
  have hd0 : b - a ≠ 0 := by omega
  have hdm : durationMinutes a b = b - a := by simp [durationMinutes, hba]
  by_cases h30 : b - a < 30
  · have hfc : fieldChecks c = some .durationTooShort := by
      simp [fieldChecks, hs, he, hba, hdm, hd0, h30]
    have hclean : clean db c = .error .durationTooShort := by
      simp [clean, hskip, hs, he, hfc]
    exact ⟨fun _ => Or.inl h30, fun _ => ⟨.durationTooShort, hclean, rfl⟩⟩
  · by_cases h360 : 360 < b - a
    · have hfc : fieldChecks c = some .durationTooLong := by
        simp [fieldChecks, hs, he, hba, hdm, hd0, h30, h360]
      have hclean : clean db c = .error .durationTooLong := by
        simp [clean, hskip, hs, he, hfc]
      exact ⟨fun _ => Or.inr h360, fun _ => ⟨.durationTooLong, hclean, rfl⟩⟩
    · have hfc : fieldChecks c = none := by
        simp [fieldChecks, hs, he, hba, hdm, hd0, h30, h360]
      constructor
      · rintro ⟨err, herr, hdur⟩
        exfalso
        simp only [clean, hskip, hs, he, Option.isSome_some, Bool.and_self, Bool.not_true,
          Bool.false_and, Bool.false_eq_true, if_false, hfc] at herr
        rcases hrc : roomConflictCheck db c with _ | other
        · rcases htc : teacherConflictCheck db c with _ | other2
          · rw [hrc, htc] at herr
            exact Except.noConfusion herr
          · rw [hrc, htc] at herr
            injection herr with h2
            rw [← h2] at hdur
            simp [CleanError.isDurationError] at hdur
        · rw [hrc] at herr
          injection herr with h2
          rw [← h2] at hdur
          simp [CleanError.isDurationError] at hdur
      · intro h; omega

/-- C9 witness: a 29-minute candidate is rejected with a duration error. -/
theorem duration_bounds_exact_witness :
    (∃ err, clean [] { schedLate with endTime := some 659 } = .error err ∧
        err.isDurationError = true) ↔
      (659 - 630 < 30 ∨ 360 < 659 - 630) :=
  duration_bounds_exact [] { schedLate with endTime := some 659 } 630 659 rfl rfl
    (by decide) rfl

/-- C10: a candidate that carries a legacy slot label but lacks a start or an
end time passes clean against any store -- the room and teacher conflict scans
are both guarded on the presence of start and end times -- and save persists
it. -/
theorem timeslot_only_skips_conflict_checks (db : List ClassSchedule) (c : ClassSchedule)
    (hmiss : c.startTime = none ∨ c.endTime = none) (hts : c.timeSlot.isSome)
    (hskip : c.skipValidation = false) :
    clean db c = .ok () ∧ saveSchedule db c false = .ok (persist db c) := by
  have hbf : backfillTimeSlot c = c := by
    unfold backfillTimeSlot
    rcases hmiss with h | h
    · rw [h]
    · rw [h]
      rcases c.startTime with _ | a <;> rfl
  have hclean : clean db c = .ok () := by
    rcases Option.isSome_iff_exists.mp hts with ⟨ts, hts2⟩
    rcases hmiss with h | h <;>
      simp [clean, fieldChecks, roomConflictCheck, teacherConflictCheck, h, hts2, hskip]
  refine ⟨hclean, ?_⟩
  simp only [saveSchedule, hbf, hskip, Bool.or_self, if_false, Bool.false_eq_true, hclean]

/-- C10 witness: a slot-only schedule is accepted even though its slot denotes
times overlapping an existing active schedule in the same room and day. -/
theorem timeslot_only_skips_conflict_checks_witness :
    clean [schedEarly] slotOnlyCand = .ok () ∧
      saveSchedule [schedEarly] slotOnlyCand false = .ok (persist [schedEarly] slotOnlyCand) :=
  timeslot_only_skips_conflict_checks [schedEarly] slotOnlyCand (Or.inl rfl) rfl rfl

/-- C2: a candidate whose half-open interval genuinely overlaps an existing
active schedule in the same room on the same day (excluding its own persisted
row) and which passes the field checks is rejected by clean with a room
conflict whose payload is a colliding row -- same room, same day, active,
time-conflicting -- and save rejects it outright, leaving the store untouched. -/
theorem room_overlap_rejected (db : List ClassSchedule) (c e : ClassSchedule)
    (a b es ee : Nat)
    (hskip : c.skipValidation = false)
    (hs : c.startTime = some a) (hend : c.endTime = some b) (hab : a < b)
    (hdmin : 30 ≤ b - a) (hdmax : b - a ≤ 360)
    (hroom : c.room.isSome) (hday : c.dayOfWeek ≠ "")
    (hmem : e ∈ db) (hact : e.isActive = true)
    (hrm : e.room = c.room) (hdy : e.dayOfWeek = c.dayOfWeek)
    (hes : e.startTime = some es) (hee : e.endTime = some ee)
    (hov1 : es < b) (hov2 : a < ee)
    (hpk : e.pk ≠ c.pk) :
    ∃ confl, clean db c = .error (.roomConflict confl) ∧
      confl.room = c.room ∧ confl.dayOfWeek = c.dayOfWeek ∧ confl.isActive = true ∧
      is_time_conflict_with c confl = true ∧
      saveSchedule db c false = .error (.roomConflict confl) := by
  have hfilter : (decide (e.room = c.room) && decide (e.dayOfWeek = c.dayOfWeek) &&
      e.isActive && decide (e.pk ≠ c.pk)) = true := by
    simp [hrm, hdy, hact, hpk]
  have hpred : (e.startTime.isSome && e.endTime.isSome && is_time_conflict_with c e) = true := by
    have hconf : is_time_conflict_with c e = true := by
      simp only [is_time_conflict_with, hs, hend, hes, hee]
      have hdne : ¬ c.dayOfWeek ≠ e.dayOfWeek := by simp [hdy]
      rw [if_neg hdne]
      have h1 : ¬ b < es := by omega
      have h2 : ¬ ee < a := by omega
      simp [h1, h2]
    simp [hes, hee, hconf]
  have hmemf : e ∈ db.filter fun o =>
      decide (o.room = c.room) && decide (o.dayOfWeek = c.dayOfWeek) &&
        o.isActive && decide (o.pk ≠ c.pk) :=
    List.mem_filter.mpr ⟨hmem, hfilter⟩
  rcases find?_isSome_of_mem
      (p := fun o => o.startTime.isSome && o.endTime.isSome && is_time_conflict_with c o)
      hmemf hpred with ⟨confl, hfind, hcmem, hcpred⟩
  have hrcc : roomConflictCheck db c = some confl := by
    have hguard : (c.room.isSome && decide (c.dayOfWeek ≠ "") && c.startTime.isSome &&
        c.endTime.isSome) = true := by
      simp [hroom, hday, hs, hend]
    unfold roomConflictCheck
    rw [if_pos hguard]
    exact hfind
  have hfc : fieldChecks c = none := by
    have hba : ¬ b ≤ a := by omega
    simp only [fieldChecks, hs, hend, hba, if_false, durationMinutes, if_neg hba]
    have hd0 : b - a ≠ 0 := by omega
    have h30 : ¬ b - a < 30 := by omega
    have h360 : ¬ 360 < b - a := by omega
    simp [hd0, h30, h360]
  have hclean : clean db c = .error (.roomConflict confl) := by
    simp only [clean, hskip, hs, hend, Option.isSome_some, Bool.and_self, Bool.not_true,
      Bool.false_and, Bool.false_eq_true, if_false, hfc, hrcc]
  have hcmem2 := List.mem_filter.mp hcmem
  have hcprop := hcmem2.2
  simp only [Bool.and_eq_true, decide_eq_true_eq] at hcprop hcpred
  refine ⟨confl, hclean, hcprop.1.1.1, hcprop.1.1.2, hcprop.1.2, hcpred.2, ?_⟩
  have hcb : clean db (backfillTimeSlot c) = clean db c := clean_backfill_of_times hs hend
  unfold saveSchedule
  rcases backfillTimeSlot_cases c with hb | ⟨v, hb⟩
  · rw [hb] at hcb ⊢
    simp [hskip, hclean]
  · rw [hb] at hcb ⊢
    simp only [hskip] at hcb
    simp [hskip, hcb, hclean]

/-- C2 witness: a 09:00-11:00 candidate in the room and day of schedEarly
(08:00-10:30) is rejected with a room conflict. -/
theorem room_overlap_rejected_witness :
    ∃ confl, clean [schedEarly] candMid = .error (.roomConflict confl) ∧
      confl.room = candMid.room ∧ confl.dayOfWeek = candMid.dayOfWeek ∧
      confl.isActive = true ∧ is_time_conflict_with candMid confl = true ∧
      saveSchedule [schedEarly] candMid false = .error (.roomConflict confl) :=
  room_overlap_rejected [schedEarly] candMid schedEarly 540 660 480 630
    rfl rfl rfl (by decide) (by decide) (by decide) rfl (by decide)
    (List.mem_singleton.mpr rfl) rfl rfl rfl rfl rfl
    (by decide) (by decide) (by decide)

/-- Backfilling never changes the primary key. -/
@[simp] theorem backfill_pk (s : ClassSchedule) : (backfillTimeSlot s).pk = s.pk := by
  rcases backfillTimeSlot_cases s with hb | ⟨v, hb⟩ <;> rw [hb]

/-- Backfilling never changes the room. -/
@[simp] theorem backfill_room (s : ClassSchedule) : (backfillTimeSlot s).room = s.room := by
  rcases backfillTimeSlot_cases s with hb | ⟨v, hb⟩ <;> rw [hb]

/-- Backfilling never changes the day of week. -/
@[simp] theorem backfill_dayOfWeek (s : ClassSchedule) :
    (backfillTimeSlot s).dayOfWeek = s.dayOfWeek := by
  rcases backfillTimeSlot_cases s with hb | ⟨v, hb⟩ <;> rw [hb]

/-- Backfilling never changes the start time. -/
@[simp] theorem backfill_startTime (s : ClassSchedule) :
    (backfillTimeSlot s).startTime = s.startTime := by
  rcases backfillTimeSlot_cases s with hb | ⟨v, hb⟩ <;> rw [hb]

/-- Backfilling never changes the end time. -/
@[simp] theorem backfill_endTime (s : ClassSchedule) :
    (backfillTimeSlot s).endTime = s.endTime := by
  rcases backfillTimeSlot_cases s with hb | ⟨v, hb⟩ <;> rw [hb]

/-- Backfilling never changes the semester. -/
@[simp] theorem backfill_semester (s : ClassSchedule) :
    (backfillTimeSlot s).semester = s.semester := by
  rcases backfillTimeSlot_cases s with hb | ⟨v, hb⟩ <;> rw [hb]

/-- Backfilling never changes the active flag. -/
@[simp] theorem backfill_isActive (s : ClassSchedule) :
    (backfillTimeSlot s).isActive = s.isActive := by
  rcases backfillTimeSlot_cases s with hb | ⟨v, hb⟩ <;> rw [hb]

/-- Backfilling never changes the skip-validation attribute. -/
@[simp] theorem backfill_skipValidation (s : ClassSchedule) :
    (backfillTimeSlot s).skipValidation = s.skipValidation := by
  rcases backfillTimeSlot_cases s with hb | ⟨v, hb⟩ <;> rw [hb]

/-- With the skip-validation attribute set, save never consults clean: it
always succeeds and persists the (backfilled) record. -/
theorem saveSchedule_skip (db : List ClassSchedule) (s : ClassSchedule)
    (h : s.skipValidation = true) :
    saveSchedule db s false = .ok (persist db (backfillTimeSlot s)) := by
  simp [saveSchedule, h]

/-- A successful row with no key hit in the store inserts: the importer builds
a fresh skip-validating instance and persists it unconditionally. -/
theorem processRow_creates (semester academicYear : String) (st : ImportState)
    (r : ImportRow) (hok : rowError r = none)
    (hnokey : st.db.find? (rowKeyMatches semester r) = none) :
    processRow semester academicYear st r =
      { st with db := persist st.db (backfillTimeSlot (rowSchedule r semester academicYear)), total := st.total + 1, inserted := st.inserted + 1 } := by
  simp [processRow, importUpsertSchedule, hok, hnokey,
    saveSchedule_skip st.db (rowSchedule r semester academicYear) rfl]

/-- A successful row with a key hit updates: the matched record's course,
teacher, year and active flag are rewritten and persisted, skipping clean. -/
theorem processRow_updates (semester academicYear : String) (st : ImportState)
    (r : ImportRow) (sch : ClassSchedule) (hok : rowError r = none)
    (hfind : st.db.find? (rowKeyMatches semester r) = some sch) :
    processRow semester academicYear st r =
      { st with db := persist st.db (backfillTimeSlot (updateSchedule sch r academicYear)), total := st.total + 1, updated := st.updated + 1 } := by
  simp [processRow, importUpsertSchedule, hok, hfind,
    saveSchedule_skip st.db (updateSchedule sch r academicYear) rfl]

/-- A failed row only counts and records its error; the store is untouched. -/
theorem processRow_error (semester academicYear : String) (st : ImportState)
    (r : ImportRow) (err : RowError) (he : rowError r = some err) :
    processRow semester academicYear st r =
      { st with total := st.total + 1, errors := st.errors ++ [err] } := by
  simp [processRow, he]

/-- In a well-formed store, a primary key determines the row. -/
theorem WfDb.eq_of_pk {db : List ClassSchedule} (h : WfDb db) {o1 o2 : ClassSchedule}
    (h1 : o1 ∈ db) (h2 : o2 ∈ db) (hpk : o1.pk = o2.pk) : o1 = o2 :=
  List.inj_on_of_nodup_map h h1 h2 hpk

/-- Every primary key in the store is below the fresh key. -/
theorem lt_nextPk {db : List ClassSchedule} {o : ClassSchedule} (ho : o ∈ db)
    {i : Nat} (hi : o.pk = some i) : i < nextPk db := by
  induction db with
  | nil => cases ho
  | cons x xs ih =>
    rcases List.mem_cons.mp ho with rfl | ho2
    · simp [nextPk, hi]
    · have h2 := ih ho2
      cases hx : x.pk with
      | none => simpa [nextPk, hx] using h2
      | some j =>
        have h3 : i < max (j + 1) (nextPk xs) := by omega
        simpa [nextPk, hx] using h3

/-- The fresh key is indeed fresh. -/
theorem nextPk_fresh (db : List ClassSchedule) :
    ∀ o ∈ db, o.pk ≠ some (nextPk db) := by
  intro o ho h
  exact absurd (lt_nextPk ho h) (lt_irrefl _)

/-- Persisting preserves well-formedness: updates keep every key in place and
inserts append a fresh key. -/
theorem wf_persist {db : List ClassSchedule} (h : WfDb db) (s : ClassSchedule) :
    WfDb (persist db s) := by
  unfold WfDb at h ⊢
  unfold persist
  cases hp : s.pk with
  | none =>
    dsimp only
    rw [List.map_append]
    refine List.Nodup.append h (by simp) ?_
    intro a ha hb
    simp only [List.map_cons, List.map_nil, List.mem_singleton] at hb
    subst hb
    rcases List.mem_map.mp ha with ⟨o, ho, hoeq⟩
    exact nextPk_fresh db o ho hoeq
  | some i =>
    dsimp only
    by_cases hany : db.any (fun o => decide (o.pk = some i)) = true
    · rw [if_pos hany, List.map_map]
      have hcongr : (db.map fun o => (if o.pk = some i then s else o).pk) =
          db.map fun o => o.pk := by
        apply List.map_congr_left
        intro o ho
        by_cases h2 : o.pk = some i
        · rw [if_pos h2, hp, h2]
        · rw [if_neg h2]
      have hfuneq : ((fun o : ClassSchedule => o.pk) ∘
          fun o => if o.pk = some i then s else o) =
          fun o => (if o.pk = some i then s else o).pk := rfl
      rw [hfuneq, hcongr]
      exact h
    · rw [if_neg hany, List.map_append]
      refine List.Nodup.append h (by simp) ?_
      intro a ha hb
      simp only [List.map_cons, List.map_nil, List.mem_singleton] at hb
      subst hb
      rcases List.mem_map.mp ha with ⟨o, ho, hoeq⟩
      apply hany
      rw [List.any_eq_true]
      exact ⟨o, ho, by simp [hoeq, hp]⟩

/-- Inserting a record without a key appends it with the fresh key. -/
theorem persist_new (db : List ClassSchedule) (s : ClassSchedule) (h : s.pk = none) :
    persist db s = db ++ [{ s with pk := some (nextPk db) }] := by
  simp [persist, h]

/-- The persisted record (possibly under a fresh key) is in the store. -/
theorem self_mem_persist (db : List ClassSchedule) (s : ClassSchedule) :
    s ∈ persist db s ∨ { s with pk := some (nextPk db) } ∈ persist db s := by
  unfold persist
  cases hp : s.pk with
  | none => right; simp
  | some i =>
    left
    dsimp only
    by_cases hany : db.any (fun o => decide (o.pk = some i)) = true
    · rw [if_pos hany]
      rcases List.any_eq_true.mp hany with ⟨o, ho, hoeq⟩
      simp only [decide_eq_true_eq] at hoeq
      exact List.mem_map.mpr ⟨o, ho, by rw [if_pos hoeq]⟩
    · rw [if_neg hany]; simp

/-- Persisting a record puts a record with the same import key in the store
(the key fields do not include the primary key). -/
theorem persist_has_key (db : List ClassSchedule) (s : ClassSchedule)
    (semester : String) (k : ImportRow) (hk : rowKeyMatches semester k s = true) :
    ∃ o ∈ persist db s, rowKeyMatches semester k o = true := by
  rcases self_mem_persist db s with h | h
  · exact ⟨s, h, hk⟩
  · refine ⟨_, h, ?_⟩
    simpa [rowKeyMatches] using hk

/-- The importer's update plus backfill leaves the lookup key unchanged. -/
theorem rowKeyMatches_update_backfill (semester academicYear : String)
    (r k : ImportRow) (sch : ClassSchedule) :
    rowKeyMatches semester k (backfillTimeSlot (updateSchedule sch r academicYear)) =
      rowKeyMatches semester k sch := by
  simp [rowKeyMatches, updateSchedule]

/-- The upsert preserves well-formedness of the store. -/
theorem wf_importUpsert {db : List ClassSchedule} (h : WfDb db) (r : ImportRow)
    (semester academicYear : String) :
    WfDb (importUpsertSchedule db r semester academicYear).1 := by
  unfold importUpsertSchedule
  cases hfind : db.find? (rowKeyMatches semester r) with
  | none =>
    rw [saveSchedule_skip db (rowSchedule r semester academicYear) rfl]
    exact wf_persist h _
  | some sch =>
    dsimp only
    rw [saveSchedule_skip db (updateSchedule sch r academicYear) rfl]
    exact wf_persist h _

/-- After an upsert for a row, the store holds a record with the row's key. -/
theorem importUpsert_key (db : List ClassSchedule) (r : ImportRow)
    (semester academicYear : String) :
    ∃ o ∈ (importUpsertSchedule db r semester academicYear).1,
      rowKeyMatches semester r o = true := by
  unfold importUpsertSchedule
  cases hfind : db.find? (rowKeyMatches semester r) with
  | none =>
    rw [saveSchedule_skip db (rowSchedule r semester academicYear) rfl]
    apply persist_has_key
    simp [rowKeyMatches, rowSchedule]
  | some sch =>
    dsimp only
    rw [saveSchedule_skip db (updateSchedule sch r academicYear) rfl]
    apply persist_has_key
    rw [rowKeyMatches_update_backfill]
    exact List.find?_some hfind

/-- The upsert never loses an existing key in a well-formed store: updates
rewrite only non-key fields of the matched record and inserts only append. -/
theorem importUpsert_preserves_key {db : List ClassSchedule} (hwf : WfDb db)
    (r k : ImportRow) (semester academicYear : String)
    (h : ∃ o ∈ db, rowKeyMatches semester k o = true) :
    ∃ o ∈ (importUpsertSchedule db r semester academicYear).1,
      rowKeyMatches semester k o = true := by
  rcases h with ⟨o, ho, hko⟩
  unfold importUpsertSchedule
  cases hfind : db.find? (rowKeyMatches semester r) with
  | none =>
    rw [saveSchedule_skip db (rowSchedule r semester academicYear) rfl]
    rw [persist_new db _ (by simp [rowSchedule])]
    exact ⟨o, List.mem_append_left _ ho, hko⟩
  | some sch =>
    dsimp only
    rw [saveSchedule_skip db (updateSchedule sch r academicYear) rfl]
    have hpk2 : (backfillTimeSlot (updateSchedule sch r academicYear)).pk = sch.pk := by
      simp [updateSchedule]
    unfold persist
    rw [hpk2]
    cases hpk : sch.pk with
    | none =>
      dsimp only
      exact ⟨o, List.mem_append_left _ ho, hko⟩
    | some i =>
      dsimp only
      by_cases hany : db.any (fun x => decide (x.pk = some i)) = true
      · rw [if_pos hany]
        refine ⟨if o.pk = some i then backfillTimeSlot (updateSchedule sch r academicYear)
            else o, List.mem_map.mpr ⟨o, ho, rfl⟩, ?_⟩
        by_cases hopk : o.pk = some i
        · rw [if_pos hopk, rowKeyMatches_update_backfill]
          have hschmem : sch ∈ db := List.mem_of_find?_eq_some hfind
          have hoe : o = sch := hwf.eq_of_pk ho hschmem (by rw [hopk, hpk])
          rw [← hoe]
          exact hko
        · rw [if_neg hopk]
          exact hko
      · rw [if_neg hany]
        exact ⟨o, List.mem_append_left _ ho, hko⟩

/-- One loop iteration preserves store well-formedness. -/
theorem wf_processRow (semester academicYear : String) {st : ImportState}
    (h : WfDb st.db) (r : ImportRow) :
    WfDb (processRow semester academicYear st r).db := by
  unfold processRow
  cases he : rowError r with
  | some err => exact h
  | none =>
    have hw := wf_importUpsert h r semester academicYear
    by_cases hp : (importUpsertSchedule st.db r semester academicYear).2 = true
    · simpa [hp] using hw
    · simp only [Bool.not_eq_true] at hp
      simpa [hp] using hw

/-- One loop iteration never loses an existing key in a well-formed store. -/
theorem processRow_preserves_key (semester academicYear : String) {st : ImportState}
    (hwf : WfDb st.db) (r k : ImportRow)
    (h : ∃ o ∈ st.db, rowKeyMatches semester k o = true) :
    ∃ o ∈ (processRow semester academicYear st r).db,
      rowKeyMatches semester k o = true := by
  unfold processRow
  cases he : rowError r with
  | some err => exact h
  | none =>
    have hw := importUpsert_preserves_key hwf r k semester academicYear h
    by_cases hp : (importUpsertSchedule st.db r semester academicYear).2 = true
    · simpa [hp] using hw
    · simp only [Bool.not_eq_true] at hp
      simpa [hp] using hw

/-- After a successful row is processed, its key is in the store. -/
theorem processRow_establishes_key (semester academicYear : String) (st : ImportState)
    (r : ImportRow) (hok : rowError r = none) :
    ∃ o ∈ (processRow semester academicYear st r).db,
      rowKeyMatches semester r o = true := by
  unfold processRow
  rw [hok]
  have hw := importUpsert_key st.db r semester academicYear
  by_cases hp : (importUpsertSchedule st.db r semester academicYear).2 = true
  · simpa [hp] using hw
  · simp only [Bool.not_eq_true] at hp
    simpa [hp] using hw

/-- A successful row bumps inserted plus updated by exactly one. -/
theorem processRow_counter_succ (semester academicYear : String) (st : ImportState)
    (r : ImportRow) (hok : rowError r = none) :
    (processRow semester academicYear st r).inserted +
        (processRow semester academicYear st r).updated =
      st.inserted + st.updated + 1 := by
  unfold processRow
  rw [hok]
  by_cases hp : (importUpsertSchedule st.db r semester academicYear).2 = true
  · simp [hp]
    omega
  · simp only [Bool.not_eq_true] at hp
    simp [hp]
    omega

/-- A failed row leaves both counters unchanged. -/
theorem processRow_counter_err (semester academicYear : String) (st : ImportState)
    (r : ImportRow) (err : RowError) (he : rowError r = some err) :
    (processRow semester academicYear st r).inserted = st.inserted ∧
      (processRow semester academicYear st r).updated = st.updated := by
  rw [processRow_error semester academicYear st r err he]
  exact ⟨rfl, rfl⟩

/-- A successful row whose key is already in the store takes the update
branch: inserted is unchanged and updated bumps by one. -/
theorem processRow_update_counts (semester academicYear : String) (st : ImportState)
    (r : ImportRow) (hok : rowError r = none)
    (hkey : ∃ o ∈ st.db, rowKeyMatches semester r o = true) :
    (processRow semester academicYear st r).inserted = st.inserted ∧
      (processRow semester academicYear st r).updated = st.updated + 1 := by
  rcases hkey with ⟨o, ho, hko⟩
  rcases find?_isSome_of_mem (p := rowKeyMatches semester r) ho hko with ⟨sch, hfind, _, _⟩
  rw [processRow_updates semester academicYear st r sch hok hfind]
  exact ⟨rfl, rfl⟩

/-- Invariants of a whole run: the store stays well-formed, existing keys are
never lost, every successful row's key ends up in the store, and inserted plus
updated grows by exactly the number of successful rows. -/
theorem runImport_props (semester academicYear : String) (rows : List ImportRow) :
    ∀ st : ImportState, WfDb st.db →
      WfDb (runImport semester academicYear st rows).db ∧
      (∀ k : ImportRow, (∃ o ∈ st.db, rowKeyMatches semester k o = true) →
        ∃ o ∈ (runImport semester academicYear st rows).db,
          rowKeyMatches semester k o = true) ∧
      (∀ r ∈ rows, rowError r = none →
        ∃ o ∈ (runImport semester academicYear st rows).db,
          rowKeyMatches semester r o = true) ∧
      (runImport semester academicYear st rows).inserted +
          (runImport semester academicYear st rows).updated =
        st.inserted + st.updated + countSucc rows := by
  induction rows with
  | nil =>
    intro st hwf
    refine ⟨hwf, fun k h => h, ?_, ?_⟩
    · intro r hr; cases hr
    · simp [runImport, countSucc]
  | cons r rest ih =>
    intro st hwf
    have hstep : runImport semester academicYear st (r :: rest) =
        runImport semester academicYear (processRow semester academicYear st r) rest := rfl
    rw [hstep]
    have hwf2 : WfDb (processRow semester academicYear st r).db :=
      wf_processRow semester academicYear hwf r
    rcases ih (processRow semester academicYear st r) hwf2 with ⟨ih1, ih2, ih3, ih4⟩
    refine ⟨ih1, ?_, ?_, ?_⟩
    · intro k hk
      exact ih2 k (processRow_preserves_key semester academicYear hwf r k hk)
    · intro q hq hqok
      rcases List.mem_cons.mp hq with rfl | hq2
      · exact ih2 q (processRow_establishes_key semester academicYear st q hqok)
      · exact ih3 q hq2 hqok
    · rw [ih4]
      cases he : rowError r with
      | none =>
        have hstepc := processRow_counter_succ semester academicYear st r he
        have hc : countSucc (r :: rest) = countSucc rest + 1 := by
          simp [countSucc, he]
        omega
      | some err =>
        have hstepc := processRow_counter_err semester academicYear st r err he
        have hc : countSucc (r :: rest) = countSucc rest := by
          simp [countSucc, he]
        omega

/-- When every successful row's key is already in a well-formed store, a run
inserts nothing and updates once per successful row. -/
theorem runImport_all_update (semester academicYear : String) (rows : List ImportRow) :
    ∀ st : ImportState, WfDb st.db →
      (∀ r ∈ rows, rowError r = none →
        ∃ o ∈ st.db, rowKeyMatches semester r o = true) →
      (runImport semester academicYear st rows).inserted = st.inserted ∧
        (runImport semester academicYear st rows).updated = st.updated + countSucc rows := by
  induction rows with
  | nil =>
    intro st _ _
    simp [runImport, countSucc]
  | cons r rest ih =>
    intro st hwf hkeys
    have hstep : runImport semester academicYear st (r :: rest) =
        runImport semester academicYear (processRow semester academicYear st r) rest := rfl
    rw [hstep]
    have hwf2 : WfDb (processRow semester academicYear st r).db :=
      wf_processRow semester academicYear hwf r
    have hkeys2 : ∀ q ∈ rest, rowError q = none →
        ∃ o ∈ (processRow semester academicYear st r).db,
          rowKeyMatches semester q o = true := by
      intro q hq hqok
      exact processRow_preserves_key semester academicYear hwf r q
        (hkeys q (List.mem_cons_of_mem _ hq) hqok)
    rcases ih (processRow semester academicYear st r) hwf2 hkeys2 with ⟨ih1, ih2⟩
    cases he : rowError r with
    | none =>
      have hupd := processRow_update_counts semester academicYear st r he
        (hkeys r (List.mem_cons_self r rest) he)
      have hc : countSucc (r :: rest) = countSucc rest + 1 := by
        simp [countSucc, he]
      rw [ih1, ih2, hupd.1, hupd.2, hc]
      omega
    | some err =>
      have herr := processRow_counter_err semester academicYear st r err he
      have hc : countSucc (r :: rest) = countSucc rest := by
        simp [countSucc, he]
      rw [ih1, ih2, herr.1, herr.2, hc]
      exact ⟨rfl, rfl⟩

/-- C5 counterexample: a file whose two rows share one key.  The first run
inserts one and updates one; re-importing the identical file yields
inserted = 0 but updated = 2, which differs from the first run's inserted
count of 1.  So the claimed equality fails as stated. -/
theorem import_reimport_counterexample :
    (importRows "S1" "1403" [] [rowSat, rowSat]).inserted = 1 ∧
      (importRows "S1" "1403" [] [rowSat, rowSat]).updated = 1 ∧
      (importRows "S1" "1403" (importRows "S1" "1403" [] [rowSat, rowSat]).db
          [rowSat, rowSat]).inserted = 0 ∧
      (importRows "S1" "1403" (importRows "S1" "1403" [] [rowSat, rowSat]).db
          [rowSat, rowSat]).updated = 2 ∧
      ¬ (importRows "S1" "1403" (importRows "S1" "1403" [] [rowSat, rowSat]).db
          [rowSat, rowSat]).updated =
        (importRows "S1" "1403" [] [rowSat, rowSat]).inserted := by
  decide

/-- C5 (amended): re-importing the same rows into the store left by a first
run yields zero inserts, and the second run's updated count equals the first
run's inserted count plus the first run's updated count (one update per
successfully processed row).  This collapses to the claimed equality
updated2 = inserted1 exactly when the first run updated nothing, e.g. when the
store held none of the file's keys and the file's keys are pairwise distinct. -/
theorem import_reimport_counts (semester academicYear : String)
    (db : List ClassSchedule) (rows : List ImportRow) (hwf : WfDb db) :
    (importRows semester academicYear
        (importRows semester academicYear db rows).db rows).inserted = 0 ∧
      (importRows semester academicYear
          (importRows semester academicYear db rows).db rows).updated =
        (importRows semester academicYear db rows).inserted +
          (importRows semester academicYear db rows).updated := by
  simp only [importRows]
  have h1 := runImport_props semester academicYear rows
    { db := db, total := 0, inserted := 0, updated := 0, errors := [] } hwf
  rcases h1 with ⟨hwf1, _, hkeys1, hcount1⟩
  have h2 := runImport_all_update semester academicYear rows
    { db := (runImport semester academicYear
        { db := db, total := 0, inserted := 0, updated := 0, errors := [] } rows).db,
      total := 0, inserted := 0, updated := 0, errors := [] } hwf1 hkeys1
  rcases h2 with ⟨h2a, h2b⟩
  refine ⟨h2a, ?_⟩
  rw [h2b]
  dsimp only at hcount1 ⊢
  omega

/-- C5 witness for the amended statement: a fresh store and a one-row file;
the second run's counts are inserted 0, updated 1 = 1 + 0. -/
theorem import_reimport_counts_witness :
    (importRows "S1" "1403"
        (importRows "S1" "1403" [] [rowSat]).db [rowSat]).inserted = 0 ∧
      (importRows "S1" "1403"
          (importRows "S1" "1403" [] [rowSat]).db [rowSat]).updated =
        (importRows "S1" "1403" [] [rowSat]).inserted +
          (importRows "S1" "1403" [] [rowSat]).updated :=
  import_reimport_counts "S1" "1403" [] [rowSat] (by simp [WfDb])

/-- The inserted record carries the row's key fields, is active, and holds the
fresh primary key. -/
theorem insertedRecord_fields (r : ImportRow) (semester academicYear : String)
    (db : List ClassSchedule) :
    (insertedRecord r semester academicYear db).room = some r.roomName ∧
      (insertedRecord r semester academicYear db).dayOfWeek = r.day ∧
      (insertedRecord r semester academicYear db).startTime = some r.startTime ∧
      (insertedRecord r semester academicYear db).endTime = some r.endTime ∧
      (insertedRecord r semester academicYear db).semester = some semester ∧
      (insertedRecord r semester academicYear db).isActive = true ∧
      (insertedRecord r semester academicYear db).pk = some (nextPk db) := by
  unfold insertedRecord
  refine ⟨?_, ?_, ?_, ?_, ?_, ?_, rfl⟩ <;> simp [rowSchedule]

/-- The create branch spelled out: the store grows by the inserted record. -/
theorem processRow_creates_db (semester academicYear : String) (st : ImportState)
    (r : ImportRow) (hok : rowError r = none)
    (hnokey : st.db.find? (rowKeyMatches semester r) = none) :
    processRow semester academicYear st r =
      { st with db := st.db ++ [insertedRecord r semester academicYear st.db], total := st.total + 1, inserted := st.inserted + 1 } := by
  rw [processRow_creates semester academicYear st r hok hnokey]
  rw [persist_new _ _ (by simp [rowSchedule])]
  rfl

/-- C3: every import upsert sets the skip-validation attribute, so the
conflict detector is never consulted: two well-formed rows with genuinely
overlapping intervals on the same room and day (but distinct upsert keys) both
insert into an empty store and records with both keys persist, while a
subsequent non-import save of a field-valid candidate overlapping the first
row's interval is rejected by the live validator with a room conflict. -/
theorem import_bypasses_conflicts (semester academicYear : String) (r1 r2 : ImportRow)
    (hok1 : rowError r1 = none) (hok2 : rowError r2 = none)
    (hroom : r2.roomName = r1.roomName) (hday : r2.day = r1.day)
    (hdayne : r1.day ≠ "")
    (hkey : ¬ (r1.startTime = r2.startTime ∧ r1.endTime = r2.endTime))
    (c : ClassSchedule) (a b : Nat)
    (hskip : c.skipValidation = false) (hcpk : c.pk = none)
    (hcs : c.startTime = some a) (hce : c.endTime = some b) (hab : a < b)
    (hdmin : 30 ≤ b - a) (hdmax : b - a ≤ 360)
    (hcroom : c.room = some r1.roomName) (hcday : c.dayOfWeek = r1.day)
    (hov1 : r1.startTime < b) (hov2 : a < r1.endTime) :
    (importRows semester academicYear [] [r1, r2]).inserted = 2 ∧
      (∃ o ∈ (importRows semester academicYear [] [r1, r2]).db,
        rowKeyMatches semester r1 o = true) ∧
      (∃ o ∈ (importRows semester academicYear [] [r1, r2]).db,
        rowKeyMatches semester r2 o = true) ∧
      ∃ confl, saveSchedule (importRows semester academicYear [] [r1, r2]).db c false =
        .error (.roomConflict confl) := by
  obtain ⟨h1room, h1day, h1start, h1end, h1sem, h1act, h1pk⟩ :=
    insertedRecord_fields r1 semester academicYear []
  obtain ⟨h2room, h2day, h2start, h2end, h2sem, h2act, h2pk⟩ :=
    insertedRecord_fields r2 semester academicYear ([] ++ [insertedRecord r1 semester academicYear []])
  have hkm : rowKeyMatches semester r2 (insertedRecord r1 semester academicYear []) = false := by
    unfold rowKeyMatches
    rw [h1start, h1end]
    by_cases h1 : r1.startTime = r2.startTime
    · have h2 : r1.endTime ≠ r2.endTime := fun h2 => hkey ⟨h1, h2⟩
      simp [h2]
    · simp [h1]
  have hnokey2 : (([] ++ [insertedRecord r1 semester academicYear []] :
      List ClassSchedule)).find? (rowKeyMatches semester r2) = none := by
    simp only [List.nil_append]
    rw [List.find?_cons_of_neg _ (by simp [hkm]), List.find?_nil]
  have hrun : importRows semester academicYear [] [r1, r2] =
      processRow semester academicYear
        (processRow semester academicYear
          { db := [], total := 0, inserted := 0, updated := 0, errors := [] } r1) r2 := rfl
  have hst1 := processRow_creates_db semester academicYear
    { db := [], total := 0, inserted := 0, updated := 0, errors := [] } r1 hok1 rfl
  rw [hst1] at hrun
  have hst2 := processRow_creates_db semester academicYear
    { db := [] ++ [insertedRecord r1 semester academicYear []], total := 0 + 1, inserted := 0 + 1, updated := 0, errors := [] } r2 hok2 hnokey2
  rw [hst2] at hrun
  rw [hrun]
  have hmem1 : insertedRecord r1 semester academicYear [] ∈
      ([] ++ [insertedRecord r1 semester academicYear []]) ++
        [insertedRecord r2 semester academicYear
          ([] ++ [insertedRecord r1 semester academicYear []])] := by simp
  have hmem2 : insertedRecord r2 semester academicYear
      ([] ++ [insertedRecord r1 semester academicYear []]) ∈
      ([] ++ [insertedRecord r1 semester academicYear []]) ++
        [insertedRecord r2 semester academicYear
          ([] ++ [insertedRecord r1 semester academicYear []])] := by simp
  refine ⟨rfl, ⟨insertedRecord r1 semester academicYear [], hmem1, ?_⟩,
    ⟨insertedRecord r2 semester academicYear
      ([] ++ [insertedRecord r1 semester academicYear []]), hmem2, ?_⟩, ?_⟩
  · unfold rowKeyMatches
    rw [h1room, h1day, h1start, h1end, h1sem]
    simp
  · unfold rowKeyMatches
    rw [h2room, h2day, h2start, h2end, h2sem]
    simp
  · have hconf := room_overlap_rejected
      (([] ++ [insertedRecord r1 semester academicYear []]) ++
        [insertedRecord r2 semester academicYear
          ([] ++ [insertedRecord r1 semester academicYear []])])
      c (insertedRecord r1 semester academicYear []) a b r1.startTime r1.endTime
      hskip hcs hce hab hdmin hdmax (by rw [hcroom]; rfl)
      (by rw [hcday]; exact hdayne) hmem1 h1act (by rw [h1room, hcroom])
      (by rw [h1day, hcday]) h1start h1end hov1 hov2
      (by rw [h1pk, hcpk]; simp)
    rcases hconf with ⟨confl, _, _, _, _, _, hsave⟩
    exact ⟨confl, hsave⟩

/-- C3 witness: the overlapping rows rowSat and rowSat2 both import into an
empty store, and the 09:00-11:00 candidate candMid is then rejected live. -/
theorem import_bypasses_conflicts_witness :
    (importRows "S1" "1403" [] [rowSat, rowSat2]).inserted = 2 ∧
      (∃ o ∈ (importRows "S1" "1403" [] [rowSat, rowSat2]).db,
        rowKeyMatches "S1" rowSat o = true) ∧
      (∃ o ∈ (importRows "S1" "1403" [] [rowSat, rowSat2]).db,
        rowKeyMatches "S1" rowSat2 o = true) ∧
      ∃ confl, saveSchedule (importRows "S1" "1403" [] [rowSat, rowSat2]).db candMid false =
        .error (.roomConflict confl) :=
  import_bypasses_conflicts "S1" "1403" rowSat rowSat2 rfl rfl rfl rfl
    (by decide) (by decide) candMid 540 660 rfl rfl rfl rfl (by decide)
    (by decide) (by decide) rfl rfl (by decide) (by decide)

/-- The head of a nonempty list always yields an oldest vote: a member with
minimal timestamp. -/
theorem oldestVote_spec (x : Vote) (xs : List Vote) :
    ∃ w, oldestVote (x :: xs) = some w ∧ w ∈ x :: xs ∧
      ∀ v ∈ x :: xs, w.votedAt ≤ v.votedAt := by
  induction xs generalizing x with
  | nil => exact ⟨x, rfl, by simp, by simp⟩
  | cons y ys ih =>
    rcases ih y with ⟨w, hw, hwmem, hwmin⟩
    unfold oldestVote
    rw [hw]
    dsimp only
    by_cases hlt : w.votedAt < x.votedAt
    · rw [if_pos hlt]
      refine ⟨w, rfl, List.mem_cons_of_mem _ hwmem, ?_⟩
      intro v hv
      rcases List.mem_cons.mp hv with rfl | hv2
      · exact le_of_lt hlt
      · exact hwmin v hv2
    · rw [if_neg hlt]
      refine ⟨x, rfl, List.mem_cons_self _ _, ?_⟩
      intro v hv
      rcases List.mem_cons.mp hv with rfl | hv2
      · exact le_refl _
      · exact le_trans (not_lt.mp hlt) (hwmin v hv2)

/-- Erasing a row satisfying the filter commutes with filtering. -/
theorem filter_eraseVote (p : Vote → Bool) (l : List Vote) (w : Vote)
    (hw : p w = true) :
    (eraseVote l w).filter p = eraseVote (l.filter p) w := by
  induction l with
  | nil => rfl
  | cons x xs ih =>
    by_cases hx : x = w
    · subst hx
      simp [eraseVote, List.filter_cons, hw]
    · by_cases hpx : p x = true
      · simp [eraseVote, hx, List.filter_cons, hpx, ih]
      · simp only [Bool.not_eq_true] at hpx
        simp [eraseVote, hx, List.filter_cons, hpx, ih]

/-- Erasing a member shortens the list by one. -/
theorem length_eraseVote {l : List Vote} {w : Vote} (hw : w ∈ l) :
    (eraseVote l w).length = l.length - 1 := by
  induction l with
  | nil => cases hw
  | cons x xs ih =>
    by_cases hx : x = w
    · simp [eraseVote, hx]
    · rcases List.mem_cons.mp hw with he | hmem
      · exact absurd he.symm hx
      · have hpos := List.length_pos_of_mem hmem
        simp [eraseVote, hx, ih hmem]
        omega

/-- C7: casting a cancellation vote with no same-direction duplicate inserts
exactly one cancellation row, and, when any confirmation vote for this
schedule lies in the 24-hour window, deletes exactly one of them -- an oldest
one -- so the recent confirmation count drops by one. -/
theorem vote_balancing (now : Int) (st : VoteStore) (sid : Nat) (voter ip : String)
    (hnodup : ∀ v ∈ st.cancellationVotes,
      ¬ (v.schedule = sid ∧ v.voterIdentifier = voter ∧ now - 1440 ≤ v.votedAt))
    (hconf : recentFor now sid st.confirmationVotes ≠ []) :
    ∃ w, w ∈ recentFor now sid st.confirmationVotes ∧
      (∀ v ∈ recentFor now sid st.confirmationVotes, w.votedAt ≤ v.votedAt) ∧
      (castCancellationVote now st sid voter ip).2 =
        { cancellationVotes := st.cancellationVotes ++ [⟨sid, voter, ip, now⟩],
          confirmationVotes := eraseVote st.confirmationVotes w } ∧
      recentVoteCount now sid
          (castCancellationVote now st sid voter ip).2.confirmationVotes =
        recentVoteCount now sid st.confirmationVotes - 1 := by
  have hfil : st.cancellationVotes.filter (fun v =>
      decide (v.schedule = sid) && decide (v.voterIdentifier = voter) &&
        decide (now - 1440 ≤ v.votedAt)) = [] := by
    rw [List.filter_eq_nil_iff]
    intro v hv
    simp only [Bool.and_eq_true, decide_eq_true_eq, not_and]
    intro h12 h3
    exact hnodup v hv ⟨h12.1, h12.2, h3⟩
  cases hl : recentFor now sid st.confirmationVotes with
  | nil => exact absurd hl hconf
  | cons x xs =>
    rcases oldestVote_spec x xs with ⟨w, hweq, hwmem, hwmin⟩
    have hcast : castCancellationVote now st sid voter ip =
        (.recorded
          (recentVoteCount now sid (st.cancellationVotes ++ [⟨sid, voter, ip, now⟩]))
          (recentVoteCount now sid (eraseVote st.confirmationVotes w)),
        { cancellationVotes := st.cancellationVotes ++ [⟨sid, voter, ip, now⟩],
          confirmationVotes := eraseVote st.confirmationVotes w }) := by
      unfold castCancellationVote
      dsimp only
      rw [if_neg (fun hne => hne hfil), hl, hweq]
    have hpw : (fun v => decide (v.schedule = sid) &&
        decide (now - 1440 ≤ v.votedAt)) w = true := by
      have : w ∈ recentFor now sid st.confirmationVotes := by
        rw [hl]; exact hwmem
      exact (List.mem_filter.mp this).2
    have hcount : recentVoteCount now sid (eraseVote st.confirmationVotes w) =
        recentVoteCount now sid st.confirmationVotes - 1 := by
      unfold recentVoteCount recentFor
      rw [filter_eraseVote _ _ _ hpw]
      have hwmem2 : w ∈ st.confirmationVotes.filter (fun v =>
          decide (v.schedule = sid) && decide (now - 1440 ≤ v.votedAt)) := by
        have : w ∈ recentFor now sid st.confirmationVotes := by
          rw [hl]; exact hwmem
        exact this
      exact length_eraseVote hwmem2
    refine ⟨w, hwmem, hwmin, ?_, ?_⟩
    · rw [hcast]
    · rw [hcast]
      exact hcount

/-- C7 witness: with 2 recent confirmation votes, one new cancellation vote
deletes the oldest confirmation, leaving exactly 1 confirmation and 1
cancellation in the window. -/
theorem vote_balancing_witness :
    (∃ w, w ∈ recentFor 1000 5 twoConfStore.confirmationVotes ∧
      (∀ v ∈ recentFor 1000 5 twoConfStore.confirmationVotes, w.votedAt ≤ v.votedAt) ∧
      (castCancellationVote 1000 twoConfStore 5 "fpA" "ipA").2 =
        { cancellationVotes := twoConfStore.cancellationVotes ++ [⟨5, "fpA", "ipA", 1000⟩],
          confirmationVotes := eraseVote twoConfStore.confirmationVotes w } ∧
      recentVoteCount 1000 5
          (castCancellationVote 1000 twoConfStore 5 "fpA" "ipA").2.confirmationVotes =
        recentVoteCount 1000 5 twoConfStore.confirmationVotes - 1) ∧
    recentVoteCount 1000 5
        (castCancellationVote 1000 twoConfStore 5 "fpA" "ipA").2.confirmationVotes = 1 ∧
    recentVoteCount 1000 5
        (castCancellationVote 1000 twoConfStore 5 "fpA" "ipA").2.cancellationVotes = 1 :=
  ⟨vote_balancing 1000 twoConfStore 5 "fpA" "ipA" (by simp [twoConfStore]) (by decide),
    by decide, by decide⟩

/-- C8: a second same-direction vote by the same fingerprint for the same
schedule within 24 hours is rejected: the endpoint answers alreadyVoted with
the current recent count, no vote row is inserted, and no opposing vote is
deleted -- the store is returned unchanged. -/
theorem vote_dedup_rejected (now : Int) (st : VoteStore) (sid : Nat) (voter ip : String)
    (hdup : ∃ v ∈ st.cancellationVotes, v.schedule = sid ∧ v.voterIdentifier = voter ∧
      now - 1440 ≤ v.votedAt) :
    castCancellationVote now st sid voter ip =
      (.alreadyVoted (recentVoteCount now sid st.cancellationVotes), st) := by
  rcases hdup with ⟨v, hv, h1, h2, h3⟩
  have hne : st.cancellationVotes.filter (fun v =>
      decide (v.schedule = sid) && decide (v.voterIdentifier = voter) &&
        decide (now - 1440 ≤ v.votedAt)) ≠ [] := by
    intro hemp
    have hmem : v ∈ st.cancellationVotes.filter (fun v =>
        decide (v.schedule = sid) && decide (v.voterIdentifier = voter) &&
          decide (now - 1440 ≤ v.votedAt)) :=
      List.mem_filter.mpr ⟨hv, by simp [h1, h2, h3]⟩
    rw [hemp] at hmem
    cases hmem
  unfold castCancellationVote
  dsimp only
  rw [if_pos hne]

/-- C8 witness: fpA voting cancellation again within 24 h is rejected with the
unchanged store and the current count 1. -/
theorem vote_dedup_rejected_witness :
    castCancellationVote 1000 oneCancelStore 5 "fpA" "ipA" =
      (.alreadyVoted (recentVoteCount 1000 5 oneCancelStore.cancellationVotes),
        oneCancelStore) :=
  vote_dedup_rejected 1000 oneCancelStore 5 "fpA" "ipA"
    ⟨⟨5, "fpA", "ipA", 900⟩, by simp [oneCancelStore], rfl, rfl, by decide⟩

/-- C6: the sweep resets exactly the rows that are not holding and were
cancelled at least two hours (120 minutes) ago: those get is_holding true and
cancelled_at cleared (keeping their identity), and every other row -- e.g. one
cancelled only 119 minutes ago -- is returned untouched. -/
theorem auto_reset_exact (now : Int) (db : List ClassSchedule) (i : Nat)
    (h : i < db.length) (h2 : i < (auto_reset_cancelled_schedules now db).length) :
    ((db.get ⟨i, h⟩).isHolding = false ∧
        (∃ t, (db.get ⟨i, h⟩).cancelledAt = some t ∧ 120 ≤ now - t) →
      ((auto_reset_cancelled_schedules now db).get ⟨i, h2⟩).isHolding = true ∧
        ((auto_reset_cancelled_schedules now db).get ⟨i, h2⟩).cancelledAt = none ∧
        ((auto_reset_cancelled_schedules now db).get ⟨i, h2⟩).pk = (db.get ⟨i, h⟩).pk) ∧
    (¬ ((db.get ⟨i, h⟩).isHolding = false ∧
        (∃ t, (db.get ⟨i, h⟩).cancelledAt = some t ∧ 120 ≤ now - t)) →
      (auto_reset_cancelled_schedules now db).get ⟨i, h2⟩ = db.get ⟨i, h⟩) := by
  have hmap : (auto_reset_cancelled_schedules now db).get ⟨i, h2⟩ =
      if shouldAutoReset now (db.get ⟨i, h⟩) then
        { db.get ⟨i, h⟩ with isHolding := true, cancelledAt := none }
      else db.get ⟨i, h⟩ := by
    simp [auto_reset_cancelled_schedules]
  have hiff : shouldAutoReset now (db.get ⟨i, h⟩) = true ↔
      ((db.get ⟨i, h⟩).isHolding = false ∧
        ∃ t, (db.get ⟨i, h⟩).cancelledAt = some t ∧ 120 ≤ now - t) := by
    unfold shouldAutoReset
    cases hc : (db.get ⟨i, h⟩).cancelledAt with
    | none => simp [hc]
    | some t =>
      simp only [hc, Bool.and_eq_true, Bool.not_eq_true', decide_eq_true_eq,
        Option.some.injEq]
      constructor
      · rintro ⟨hh, hle⟩
        exact ⟨hh, t, rfl, by omega⟩
      · rintro ⟨hh, t2, ht2, hle⟩
        subst ht2
        exact ⟨hh, by omega⟩
  constructor
  · intro hcond
    rw [hmap, if_pos (hiff.mpr hcond)]
    exact ⟨rfl, rfl, rfl⟩
  · intro hcond
    have hsr : ¬ shouldAutoReset now (db.get ⟨i, h⟩) = true := fun hb =>
      hcond (hiff.mp hb)
    rw [hmap, if_neg hsr]

/-- C6 witness: at clock 10000 the sweep leaves the 119-minute-old
cancellation untouched and resets the 121-minute-old one. -/
theorem auto_reset_exact_witness :
    (auto_reset_cancelled_schedules 10000 [sched119, sched121]).get ⟨0, by decide⟩ =
        sched119 ∧
      ((auto_reset_cancelled_schedules 10000 [sched119, sched121]).get
        ⟨1, by decide⟩).isHolding = true ∧
      ((auto_reset_cancelled_schedules 10000 [sched119, sched121]).get
        ⟨1, by decide⟩).cancelledAt = none := by
  have h0 := auto_reset_exact 10000 [sched119, sched121] 0 (by decide) (by decide)
  have h1 := auto_reset_exact 10000 [sched119, sched121] 1 (by decide) (by decide)
  refine ⟨h0.2 ?_, (h1.1 ?_).1, (h1.1 ?_).2.1⟩
  · rintro ⟨hhold, t, ht, hle⟩
    have ht2 : (9881 : Int) = t := by
      simpa [sched119, schedEarly] using ht
    omega
  · exact ⟨rfl, 9879, rfl, by omega⟩
  · exact ⟨rfl, 9879, rfl, by omega⟩

end AzadUni

